import Mathlib

/-!
A shallow embedding of the `stardog` Go client library
(`stardog/stardog.go`, `stardog/users.go`).  Go strings are modelled as
Lean `String`s (operating on their `List Char` contents where the Go code
works with byte slices), Go's `url.Values` as an ordered association list
of key/value pairs, `http.Header` as an association list from canonical
header names to lists of values, and the HTTP transport as an explicit
oracle describing the outcome of the single round trip that
`(*Client).BareDo` performs.
-/

namespace Stardog

/-! ## Go string primitives -/

/-- Go `strings.Split(s, string(sep))` over char lists. -/
def splitOnChar (sep : Char) (s : List Char) : List (List Char) :=
  match s with
  | [] => [[]]
  | c :: rest =>
      match splitOnChar sep rest with
      | [] => [[c]]
      | g :: gs => if c = sep then [] :: g :: gs else (c :: g) :: gs

/-- Go `strings.TrimSpace` (the headers modelled here only use ASCII
whitespace, which `Char.isWhitespace` covers). -/
def trimSpace (s : List Char) : List Char :=
  ((s.dropWhile Char.isWhitespace).reverse.dropWhile Char.isWhitespace).reverse

/-- Go `strings.Cut(s, string(sep))` (without the `found` flag: when the
separator is absent the second component is `[]`, as in Go). -/
def cutChar (sep : Char) (s : List Char) : List Char × List Char :=
  match s with
  | [] => ([], [])
  | c :: rest =>
      if c = sep then ([], rest)
      else
        let p := cutChar sep rest
        (c :: p.1, p.2)

/-! ## `net/url` query parsing (`url.Values`, `url.ParseQuery`) -/

/-- Go `url.Values`, kept as the ordered list of key/value pairs produced
by `url.ParseQuery` (the Go map groups values per key; all claims are
stated through `Values.get` / `Values.getAll`, which are insensitive to
that regrouping). -/
abbrev Values := List (String × String)

/-- Go `url.Values.Get`: first value associated to the key, `""` when the
key is absent. -/
def Values.get (ps : Values) (key : String) : String :=
  match ps.find? (fun p => p.1 = key) with
  | some p => p.2
  | none => ""

/-- All values associated to a key, in order (`url.Values[key]`). -/
def Values.getAll (ps : Values) (key : String) : List String :=
  (ps.filter (fun p => p.1 = key)).map Prod.snd

/-- Go `url.Values.Set`: replace all values of `key` by the single
`val`. -/
def Values.set (ps : Values) (key val : String) : Values :=
  ps.filter (fun p => p.1 ≠ key) ++ [(key, val)]

/-- One hex digit, as consumed by Go `url.QueryUnescape`. -/
def unhexDigit (c : Char) : Option Nat :=
  if '0' ≤ c ∧ c ≤ '9' then some (c.toNat - 48)
  else if 'a' ≤ c ∧ c ≤ 'f' then some (c.toNat - 87)
  else if 'A' ≤ c ∧ c ≤ 'F' then some (c.toNat - 55)
  else none

/-- Go `url.QueryUnescape`: `%XX` hex escapes are decoded (a byte, read
here as a single char) and `+` becomes a space; a malformed escape is an
error. -/
def queryUnescape : List Char → Option (List Char)
  | [] => some []
  | '%' :: a :: b :: rest => do
      let ha ← unhexDigit a
      let hb ← unhexDigit b
      let r ← queryUnescape rest
      pure (Char.ofNat (16 * ha + hb) :: r)
  | '%' :: _ => none
  | '+' :: rest => do
      let r ← queryUnescape rest
      pure (' ' :: r)
  | c :: rest => do
      let r ← queryUnescape rest
      pure (c :: r)

/-- One `key=value` segment of a query string, as handled by the loop of
Go `url.ParseQuery`: empty segments and segments containing `;` are
skipped, both sides are query-unescaped, and a pair whose unescaping
fails is skipped. -/
def parseQueryPair (seg : List Char) : Option (String × String) :=
  if seg = [] then none
  else if seg.contains ';' then none
  else
    let p := cutChar '=' seg
    match queryUnescape p.1, queryUnescape p.2 with
    | some k, some v => some (String.mk k, String.mk v)
    | _, _ => none

/-- Go `url.ParseQuery` (the pairs that survive; `url.URL.Query` discards
the error). -/
def parseQuery (s : List Char) : Values :=
  (splitOnChar '&' s).foldr
    (fun seg acc =>
      match parseQueryPair seg with
      | some p => p :: acc
      | none => acc)
    []

/-! ## `url.URL` -/

/-- Go `url.URL`, reduced to the parts this library reads and writes: an
opaque scheme/host/path blob, the parsed query, and the fragment.
`url.Parse` is modelled as total (its rare failure cases — invalid
control characters, malformed ports — never arise for the URLs the
claims quantify over). -/
structure URL where
  blob : String
  query : Values
  fragment : String
deriving DecidableEq, Repr

/-- Go `url.Parse` restricted to what `populatePageValues` consumes: the
fragment is everything after the first `#`, the raw query everything
after the first `?` before the fragment, and `url.URL.Query` parses it. -/
def parseURL (href : List Char) : URL :=
  let f := cutChar '#' href
  let q := cutChar '?' f.1
  { blob := String.mk q.1, query := parseQuery q.2, fragment := String.mk f.2 }

/-- `sanitizeURL` redacts the `client_secret` parameter from the URL
(`stardog.go`): when `params.Get("client_secret")` is non-empty the
parameter is `Set` to `"REDACTED"` and the query re-encoded; the `nil`
receiver case of the Go function is handled at the call site model. -/
def sanitizeURL (uri : URL) : URL :=
  let params := uri.query
  if (Values.get params "client_secret").length > 0 then
    { uri with query := Values.set params "client_secret" "REDACTED" }
  else uri

/-! ## Responses and pagination (`newResponse`, `populatePageValues`) -/

/-- The parts of Go `http.Response` this library reads: the header map
(keys already in canonical form) and the body. -/
structure HTTPResponse where
  headers : List (String × List String)
  body : String
deriving DecidableEq, Repr

/-- Header-map indexing `r.Header["Link"]` with its `ok` flag. -/
def headerLookup (hs : List (String × List String)) (key : String) :
    Option (List String) :=
  (hs.find? (fun p => p.1 = key)).map Prod.snd

/-- The `stardog.Response` wrapper: the raw response plus the pagination
fields (`Rate` and `TokenExpiration` are never written by the code under
scrutiny and are omitted). -/
structure Response where
  raw : HTTPResponse
  NextPage : Int := 0
  PrevPage : Int := 0
  FirstPage : Int := 0
  LastPage : Int := 0
  NextPageToken : String := ""
  Cursor : String := ""
  Before : String := ""
  After : String := ""
deriving DecidableEq, Repr

/-- Numeric value of a digit string (used by the `strconv.Atoi` model). -/
def digitsVal (ds : List Char) : Nat :=
  ds.foldl (fun a c => 10 * a + (c.toNat - 48)) 0

/-- Go `strconv.Atoi`: optional sign then decimal digits; `none` models a
syntax error (the Go 64-bit range error is not modelled — no claim
involves 19-digit page numbers). -/
def atoi? (s : String) : Option Int :=
  match s.data with
  | [] => none
  | '+' :: ds =>
      if ds ≠ [] ∧ ds.all Char.isDigit then some (digitsVal ds) else none
  | '-' :: ds =>
      if ds ≠ [] ∧ ds.all Char.isDigit then some (-(digitsVal ds : Int)) else none
  | ds => if ds.all Char.isDigit then some (digitsVal ds) else none

/-- `strconv.Atoi` when its error is discarded: syntax errors yield 0. -/
def atoiOr0 (s : String) : Int := (atoi? s).getD 0

/-- One relation segment of a cursor-style link entry: only
`rel="next"` stores the cursor (the inner `for`/`switch` of
`populatePageValues` in the `cursor != ""` branch). -/
def applyCursorRel (cursor : String) (r : Response) (segment : List Char) :
    Response :=
  if trimSpace segment = "rel=\"next\"".data then { r with Cursor := cursor }
  else r

/-- One relation segment of an offset-style link entry (the final
`for`/`switch` of `populatePageValues`).  For `rel="next"`, Go assigns
`r.NextPage, err = strconv.Atoi(page)` — on a syntax error `Atoi`
returns 0, so `NextPage` is zeroed and the raw value goes to
`NextPageToken`; `After` is set either way. -/
def applyRel (pg bef aft : String) (r : Response) (segment : List Char) :
    Response :=
  let seg := trimSpace segment
  if seg = "rel=\"next\"".data then
    match atoi? pg with
    | some n => { r with NextPage := n, After := aft }
    | none => { r with NextPage := 0, NextPageToken := pg, After := aft }
  else if seg = "rel=\"prev\"".data then
    { r with PrevPage := atoiOr0 pg, Before := bef }
  else if seg = "rel=\"first\"".data then { r with FirstPage := atoiOr0 pg }
  else if seg = "rel=\"last\"".data then { r with LastPage := atoiOr0 pg }
  else r

/-- The body of the outer `for` loop of `populatePageValues`: one
comma-separated link entry. -/
def processLinkEntry (r : Response) (link : List Char) : Response :=
  let segments := splitOnChar ';' (trimSpace link)
  match segments with
  | [] => r
  | [_] => r
  | seg0 :: seg1 :: rest =>
    if seg0.head? = some '<' ∧ seg0.getLast? = some '>' then
      let href := (seg0.drop 1).dropLast
      let q := (parseURL href).query
      let cursor := Values.get q "cursor"
      if cursor ≠ "" then (seg1 :: rest).foldl (applyCursorRel cursor) r
      else
        let page := Values.get q "page"
        let since := Values.get q "since"
        let bef := Values.get q "before"
        let aft := Values.get q "after"
        if page = "" ∧ bef = "" ∧ aft = "" ∧ since = "" then r
        else
          let pg := if since ≠ "" ∧ page = "" then since else page
          (seg1 :: rest).foldl (applyRel pg bef aft) r
    else r

/-- `populatePageValues` (`stardog.go`): when a `Link` header is present
with at least one value, the FIRST value (`links[0]`) is split on commas
and each entry processed in order. -/
def populatePageValues (r : Response) : Response :=
  match headerLookup r.raw.headers "Link" with
  | some links =>
      match links with
      | [] => r
      | l0 :: _ => (splitOnChar ',' l0.data).foldl processLinkEntry r
  | none => r

/-- `newResponse`: wrap the raw response and populate the pagination
fields. -/
def newResponse (raw : HTTPResponse) : Response :=
  populatePageValues { raw := raw }

/-- The call context, reduced to what `BareDo` observes: whether
`ctx.Done()` is already closed at the time the transport fails, and the
message of `ctx.Err()` in that case. -/
structure GoContext where
  done : Bool
  errMsg : String
deriving DecidableEq, Repr

/-- A transport error returned by `c.client.Do`: either a `*url.Error`
(which carries the request URL) or any other error. -/
inductive TransportError where
  | urlError (op : String) (url : URL) (msg : String)
  | plain (msg : String)
deriving DecidableEq, Repr

/-- The errors the modelled functions surface. -/
inductive GoError where
  | errNonNilContext
  | ctxErr (msg : String)
  | transport (e : TransportError)
  | configErr (msg : String)
  | encodeErr (msg : String)
  | decodeErr (msg : String)
deriving DecidableEq, Repr

/-- The outcome of the single `c.client.Do(req)` round trip, supplied as
an oracle: the transport is an external collaborator. -/
inductive TransportResult where
  | success (resp : HTTPResponse)
  | failure (e : TransportError)
deriving DecidableEq, Repr

/-! ## JSON values and the `encoding/json` collaborator

The JSON codec is an external collaborator (the standard serialization
library); it is modelled here from its documented behaviour so that the
body-handling contracts of `NewRequest` and `Do` can be stated.  JSON
numbers are modelled as integers (the repository never sends or decodes
a fractional number; floating-point formatting is out of scope). -/

/-- A JSON value. -/
inductive Json where
  | null
  | bool (b : Bool)
  | num (n : Int)
  | str (s : String)
  | arr (elems : List Json)
  | obj (fields : List (String × Json))
deriving Repr

/-- The opening-brace character, written numerically. -/
def lBrace : Char := Char.ofNat 123

/-- The closing-brace character, written numerically. -/
def rBrace : Char := Char.ofNat 125

/-- Lower-case hex digit, as `encoding/json` writes in escape
sequences. -/
def hexChar (n : Nat) : Char :=
  "0123456789abcdef".data.getD n '0'

/-- `encoding/json` string escaping for one character, with
`SetEscapeHTML(false)`: quote and backslash are escaped, the named
control escapes are used for newline/carriage-return/tab, other control
characters become `\u00xx`, U+2028 and U+2029 are always escaped, and
everything else is written literally. -/
def encodeStringChar (c : Char) : List Char :=
  if c = '"' then ['\\', '"']
  else if c = '\\' then ['\\', '\\']
  else if c = '\n' then ['\\', 'n']
  else if c = '\r' then ['\\', 'r']
  else if c = '\t' then ['\\', 't']
  else if c.toNat < 32 then
    ['\\', 'u', '0', '0', hexChar (c.toNat / 16), hexChar (c.toNat % 16)]
  else if c.toNat = 8232 then ['\\', 'u', '2', '0', '2', '8']
  else if c.toNat = 8233 then ['\\', 'u', '2', '0', '2', '9']
  else [c]

/-- Escaped body of a JSON string literal. -/
def encodeStrBody : List Char → List Char
  | [] => []
  | c :: rest => encodeStringChar c ++ encodeStrBody rest

/-- Decimal digits of a natural number, most significant first. -/
def encodeNat (n : Nat) : List Char :=
  if n = 0 then ['0'] else ((Nat.digits 10 n).map Nat.digitChar).reverse

/-- `encoding/json` integer formatting. -/
def encodeInt (n : Int) : List Char :=
  if n < 0 then '-' :: encodeNat n.natAbs else encodeNat n.toNat

mutual

/-- `encoding/json` marshalling of a value (`SetEscapeHTML(false)`,
object fields in declaration order as for a Go struct). -/
def encodeJson : Json → List Char
  | .null => 'n' :: 'u' :: 'l' :: 'l' :: []
  | .bool true => 't' :: 'r' :: 'u' :: 'e' :: []
  | .bool false => 'f' :: 'a' :: 'l' :: 's' :: 'e' :: []
  | .num n => encodeInt n
  | .str s => '"' :: (encodeStrBody s.data ++ ['"'])
  | .arr xs => '[' :: (encodeElems xs ++ [']'])
  | .obj kvs => lBrace :: (encodeMembers kvs ++ [rBrace])

/-- Comma-separated encodings of array elements. -/
def encodeElems : List Json → List Char
  | [] => []
  | [v] => encodeJson v
  | v :: vs => encodeJson v ++ ',' :: encodeElems vs

/-- Comma-separated encodings of object members. -/
def encodeMembers : List (String × Json) → List Char
  | [] => []
  | [(k, v)] => '"' :: (encodeStrBody k.data ++ ['"']) ++ ':' :: encodeJson v
  | (k, v) :: kvs =>
      '"' :: (encodeStrBody k.data ++ ['"']) ++ ':' :: encodeJson v
        ++ ',' :: encodeMembers kvs

end

/-- JSON whitespace (space, tab, newline, carriage return — exactly the
four characters `Char.isWhitespace` accepts). -/
def skipWs (s : List Char) : List Char := s.dropWhile Char.isWhitespace

/-- The named single-character escapes of a JSON string literal. -/
def escChar : Char → Option Char
  | '"' => some '"'
  | '\\' => some '\\'
  | '/' => some '/'
  | 'b' => some (Char.ofNat 8)
  | 'f' => some (Char.ofNat 12)
  | 'n' => some '\n'
  | 'r' => some '\r'
  | 't' => some '\t'
  | _ => none

/-- Body of a JSON string literal, up to and past the closing quote.
Raw control characters are rejected, escapes are decoded (`\uXXXX` via
`Char.ofNat`; the encoder never emits surrogate halves). -/
def parseStrBody : List Char → Option (List Char × List Char)
  | [] => none
  | c :: rest =>
      if c = '"' then some ([], rest)
      else if c = '\\' then
        match rest with
        | [] => none
        | e :: r =>
            if e = 'u' then
              match r with
              | a :: b :: c2 :: d :: r2 => do
                  let ha ← unhexDigit a
                  let hb ← unhexDigit b
                  let hc ← unhexDigit c2
                  let hd ← unhexDigit d
                  let p ← parseStrBody r2
                  pure (Char.ofNat (4096 * ha + 256 * hb + 16 * hc + hd) :: p.1, p.2)
              | _ => none
            else do
              let ec ← escChar e
              let p ← parseStrBody r
              pure (ec :: p.1, p.2)
      else if c.toNat < 32 then none
      else (parseStrBody rest).map (fun p => (c :: p.1, p.2))

/-- Leading decimal number: at least one digit, stopping at the first
non-digit. -/
def parseNat (s : List Char) : Option (Nat × List Char) :=
  let ds := s.takeWhile Char.isDigit
  if ds = [] then none else some (digitsVal ds, s.dropWhile Char.isDigit)

/-- A JSON number (the integral numbers of this model). -/
def parseNum (s : List Char) : Option (Json × List Char) :=
  match s with
  | '-' :: rest => (parseNat rest).map (fun p => (Json.num (-(p.1 : Int)), p.2))
  | _ => (parseNat s).map (fun p => (Json.num (p.1 : Int), p.2))

/-- Require the given literal characters at the head of the input and
drop them. -/
def dropLit : List Char → List Char → Option (List Char)
  | [], s => some s
  | l :: ls, c :: cs => if c = l then dropLit ls cs else none
  | _ :: _, [] => none

mutual

/-- One JSON value, fuelled (the fuel only bounds nesting; the callers
pass the input length, which the round-trip lemmas show suffices). -/
def parseVal : Nat → List Char → Option (Json × List Char)
  | 0, _ => none
  | f + 1, s =>
    match skipWs s with
    | [] => none
    | c :: r =>
        if c = 'n' then (dropLit "ull".data r).map (fun r2 => (Json.null, r2))
        else if c = 't' then (dropLit "rue".data r).map (fun r2 => (Json.bool true, r2))
        else if c = 'f' then (dropLit "alse".data r).map (fun r2 => (Json.bool false, r2))
        else if c = '"' then
          (parseStrBody r).map (fun p => (Json.str (String.mk p.1), p.2))
        else if c = '[' then
          match skipWs r with
          | c2 :: r2 =>
              if c2 = ']' then some (Json.arr [], r2)
              else (parseElems f r).map (fun p => (Json.arr p.1, p.2))
          | [] => (parseElems f r).map (fun p => (Json.arr p.1, p.2))
        else if c = lBrace then
          match skipWs r with
          | c2 :: r2 =>
              if c2 = rBrace then some (Json.obj [], r2)
              else (parseMembers f r).map (fun p => (Json.obj p.1, p.2))
          | [] => none
        else parseNum (c :: r)

/-- Array elements after the opening bracket, consuming the closing
bracket. -/
def parseElems : Nat → List Char → Option (List Json × List Char)
  | 0, _ => none
  | f + 1, s => do
      let p ← parseVal f s
      match skipWs p.2 with
      | c2 :: r2 =>
          if c2 = ',' then (parseElems f r2).map (fun q => (p.1 :: q.1, q.2))
          else if c2 = ']' then some ([p.1], r2)
          else none
      | [] => none

/-- Object members after the opening brace, consuming the closing
brace. -/
def parseMembers : Nat → List Char → Option (List (String × Json) × List Char)
  | 0, _ => none
  | f + 1, s =>
    match skipWs s with
    | c :: r =>
        if c = '"' then do
          let kp ← parseStrBody r
          match skipWs kp.2 with
          | c2 :: r2 =>
              if c2 = ':' then do
                let vp ← parseVal f r2
                match skipWs vp.2 with
                | c3 :: r3 =>
                    if c3 = ',' then
                      (parseMembers f r3).map
                        (fun q => ((String.mk kp.1, vp.1) :: q.1, q.2))
                    else if c3 = rBrace then some ([(String.mk kp.1, vp.1)], r3)
                    else none
                | [] => none
              else none
          | [] => none
        else none
    | [] => none

end

/-- `json.Decoder.Decode`'s reading of the first JSON value of a stream
(data after the first value is left unread and is not an error). -/
def decodeJson (s : List Char) : Option Json :=
  (parseVal (s.length + 1) s).map Prod.fst

/-! ## The request builder (`NewRequest`, `SetBasicAuth`) -/

/-- The `username`/`password` pair of `stardog.BasicAuth`. -/
structure BasicAuth where
  username : String
  password : String
deriving DecidableEq, Repr

/-- The base URL, split as Go's `url.URL` exposes it to `NewRequest`:
everything before the path is opaque, the `Path` field is what the
trailing-slash check reads. -/
structure BaseURL where
  schemeHost : String
  path : String
deriving DecidableEq, Repr

/-- The fields of `stardog.Client` that `NewRequest` and `BareDo` read
(the mutex and the services only organise access). -/
structure Client where
  baseURL : BaseURL
  userAgent : String
  basicAuth : Option BasicAuth
deriving DecidableEq, Repr

/-- `(*Client).SetBasicAuth`: replace the credential pair. -/
def SetBasicAuth (c : Client) (username password : String) : Client :=
  { c with basicAuth := some { username := username, password := password } }

/-- `http.Header.Set`: replace all values of the (canonical) key by the
single given value, or append a fresh entry. -/
def headerSet (hs : List (String × List String)) (key val : String) :
    List (String × List String) :=
  if (hs.find? (fun p => p.1 = key)).isSome then
    hs.map (fun p => if p.1 = key then (key, [val]) else p)
  else hs ++ [(key, [val])]

/-- The base64 alphabet. -/
def b64Char (n : Nat) : Char :=
  "ABCDEFGHIJKLMNOPQRSTUVWXYZabcdefghijklmnopqrstuvwxyz0123456789+/".data.getD n 'A'

/-- Standard base64 of a byte sequence, with padding
(`base64.StdEncoding.EncodeToString`, as used by
`http.Request.SetBasicAuth`). -/
def base64Encode : List Nat → List Char
  | [] => []
  | [a] => [b64Char (a / 4), b64Char (a % 4 * 16), '=', '=']
  | [a, b] => [b64Char (a / 4), b64Char (a % 4 * 16 + b / 16), b64Char (b % 16 * 4), '=']
  | a :: b :: c :: rest =>
      b64Char (a / 4) :: b64Char (a % 4 * 16 + b / 16)
        :: b64Char (b % 16 * 4 + c / 64) :: b64Char (c % 64)
        :: base64Encode rest

/-- UTF-8 bytes of one character. -/
def utf8Char (c : Char) : List Nat :=
  let n := c.toNat
  if n < 128 then [n]
  else if n < 2048 then [192 + n / 64, 128 + n % 64]
  else if n < 65536 then [224 + n / 4096, 128 + n / 64 % 64, 128 + n % 64]
  else [240 + n / 262144, 128 + n / 4096 % 64, 128 + n / 64 % 64, 128 + n % 64]

/-- UTF-8 bytes of a string (Go strings are byte slices). -/
def utf8Bytes (s : String) : List Nat :=
  (s.data.map utf8Char).flatten

/-- The value `http.Request.SetBasicAuth` stores in the `Authorization`
header: `"Basic "` followed by the base64 of `username + ":" +
password`. -/
def basicAuthValue (username password : String) : String :=
  "Basic " ++ String.mk (base64Encode (utf8Bytes (username ++ ":" ++ password)))

/-- The `http.Request` descriptor as this library builds it: method,
resolved URL, header map, optional serialized body. -/
structure Request where
  method : String
  url : String
  headers : List (String × List String)
  body : Option (List Char)
deriving DecidableEq, Repr

/-- Go `strings.HasSuffix(path, "/")`: for the one-character suffix it
is exactly "the last character is `/`". -/
def endsWithSlash (s : String) : Bool :=
  s.data.getLast? = some '/'

/-- `c.BaseURL.Parse(urlStr)` for the relative references this library
issues (a path reference resolved against a base whose path ends in
`/`); full RFC 3986 resolution is not needed by any claim. -/
def resolveRef (base : BaseURL) (ref : String) : String :=
  base.schemeHost ++ base.path ++ ref

/-- `(*Client).NewRequest`.  The trailing-slash check comes first; the
body, when present, is serialized by a `json.Encoder` with
`SetEscapeHTML(false)` (which appends a newline, and which always
succeeds on the first-order values `Json` models); then the headers are
set in source order.  The trailing `RequestOption` list is not modelled:
every call site in the repository passes none, and the claims concern
the build itself. -/
def NewRequest (c : Client) (method urlStr : String) (body : Option Json) :
    Except GoError Request :=
  if ¬ endsWithSlash c.baseURL.path then
    .error (.configErr ("BaseURL must have a trailing slash, but "
      ++ c.baseURL.schemeHost ++ c.baseURL.path ++ " does not"))
  else
    let u := resolveRef c.baseURL urlStr
    let buf : Option (List Char) := body.map (fun v => encodeJson v ++ ['\n'])
    let req0 : Request := { method := method, url := u, headers := [], body := buf }
    let req1 :=
      match body with
      | some _ =>
          { req0 with headers := headerSet req0.headers "Content-Type" "application/json" }
      | none => req0
    let req2 := { req1 with headers := headerSet req1.headers "Accept" "application/json" }
    let req3 :=
      if c.userAgent ≠ "" then
        { req2 with headers := headerSet req2.headers "User-Agent" c.userAgent }
      else req2
    let req4 :=
      match c.basicAuth with
      | some ba =>
          { req3 with
              headers := headerSet req3.headers "Authorization"
                (basicAuthValue ba.username ba.password) }
      | none => req3
    .ok req4

/-! ## The transport round trip (`BareDo`) -/

/-- `(*Client).BareDo`.  A `nil` context is rejected; on transport
failure, a context that is already done wins, then a `*url.Error` has
its URL sanitized (`url.Parse(e.URL)` is modelled as total, so the
sanitizing branch is always taken for a `*url.Error`); on success the
response is wrapped by `newResponse`. -/
def BareDo (ctx : Option GoContext) (transport : TransportResult) :
    Except GoError Response :=
  match ctx with
  | none => .error .errNonNilContext
  | some ctx =>
    match transport with
    | .failure e =>
        if ctx.done then .error (.ctxErr ctx.errMsg)
        else
          match e with
          | .urlError op u msg =>
              .error (.transport (.urlError op (sanitizeURL u) msg))
          | .plain msg => .error (.transport (.plain msg))
    | .success resp => .ok (newResponse resp)

/-! ## `Do` and the list-users operation -/

/-- The `v interface{}` argument of `Do` with its state: `nil`, an
`io.Writer` byte sink (with the bytes written so far), or a typed JSON
target (with its current value; `nil` models the zero value). -/
inductive DoTarget where
  | nothing
  | writer (acc : List Char)
  | typed (val : Option Json)
deriving Repr

/-- What a call to `Do` produces: the Go `(*Response, error)` pair plus
the final state of the destination. -/
structure DoResult where
  resp : Option Response
  err : Option GoError
  target : DoTarget
deriving Repr

/-- `json.NewDecoder(resp.Body).Decode(v)` followed by the `io.EOF`
check of `Do`: a body with no JSON value in it (empty, or only
whitespace) yields `io.EOF`, which `Do` ignores, leaving the target
untouched; a body whose first value does not parse is a decode error
(the target is modelled as unchanged then — `Do` surfaces the error
either way); otherwise the first value is stored. -/
def decodeBody (body : String) (prior : Option Json) :
    Option Json × Option GoError :=
  match skipWs body.data with
  | [] => (prior, none)
  | _ =>
      match decodeJson body.data with
      | some v => (some v, none)
      | none => (prior, some (.decodeErr body))

/-- `(*Client).Do`: run `BareDo`, return early on its error (with its
possibly-nil response), then dispatch on the destination: `nil` does
nothing, an `io.Writer` receives the raw body (`io.Copy`), and a typed
target gets the JSON decode with the empty-body/`io.EOF` exemption. -/
def Do (ctx : Option GoContext) (transport : TransportResult)
    (v : DoTarget) : DoResult :=
  match BareDo ctx transport with
  | .error e => { resp := none, err := some e, target := v }
  | .ok resp =>
      match v with
      | .nothing => { resp := some resp, err := none, target := v }
      | .writer acc =>
          { resp := some resp, err := none,
            target := .writer (acc ++ resp.raw.body.data) }
      | .typed prior =>
          let d := decodeBody resp.raw.body prior
          { resp := some resp, err := d.2, target := .typed d.1 }

/-- `(*UsersService).List` (`users.go`): build `GET admin/users`, fail
on a build error, otherwise run `Do` with a typed `UsersList` target and
return its `(*Response, error)` pair (the request dump printed between
the two steps is I/O the claims do not touch). -/
def listUsers (c : Client) (ctx : Option GoContext)
    (transport : TransportResult) : Option Response × Option GoError :=
  match NewRequest c "GET" "admin/users" none with
  | .error e => (none, some e)
  | .ok _ =>
      let res := Do ctx transport (.typed none)
      match res.err with
      | some e => (res.resp, some e)
      | none => (res.resp, none)

/-- "The head of `rest` is not a digit": the boundary condition after a
JSON number. -/
def headNotDigit (rest : List Char) : Prop :=
  ∀ c, rest.head? = some c → c.isDigit = false

/-! # Theorems -/

/-! ## Association-list lemmas for `url.Values` and headers -/

theorem Values.get_set_self (ps : Values) (k v : String) :
    Values.get (Values.set ps k v) k = v := by
  induction ps with
  | nil => simp [Values.get, Values.set, List.find?]
  | cons a ps ih =>
      by_cases h : a.1 = k
      · simpa [Values.set, h] using ih
      · simpa [Values.set, Values.get, List.find?, h] using ih

theorem filter_filter_subsume {α : Type} (p q : α → Bool) (l : List α)
    (h : ∀ a, p a = true → q a = true) :
    (l.filter q).filter p = l.filter p := by
  induction l with
  | nil => rfl
  | cons a l ih =>
      cases hq : q a
      · have hp : p a = false := by
          cases hp : p a
          · rfl
          · exact absurd (h a hp) (by simp [hq])
        simp [List.filter_cons, hq, hp, ih]
      · cases hp : p a <;> simp [List.filter_cons, hq, hp, ih]

theorem Values.getAll_set_ne (ps : Values) (k v k' : String) (h : k' ≠ k) :
    Values.getAll (Values.set ps k v) k' = Values.getAll ps k' := by
  unfold Values.getAll Values.set
  rw [List.filter_append,
    filter_filter_subsume (fun p => decide (p.1 = k')) (fun p => decide (p.1 ≠ k)) ps
      (by intro a ha; simp at ha ⊢; rw [ha]; exact h)]
  simp [Ne.symm h]

theorem string_length_pos_of_ne_empty {s : String} (h : s ≠ "") :
    0 < s.length := by
  cases s with
  | mk l =>
      cases l with
      | nil => exact absurd rfl h
      | cons c cs => simp [String.length]

/-! ## C1: `client_secret` redaction -/

/-- C1 (counterexample): the claim quantifies over every URL whose query
string CONTAINS a `client_secret` parameter, but `sanitizeURL` only
redacts when the parameter's value is non-empty
(`len(params.Get("client_secret")) > 0`): a URL carrying
`client_secret=` (empty value) is surfaced by `BareDo` unredacted. -/
theorem C1_counterexample :
    (Values.getAll
        (URL.query { blob := "http://h/p", query := [("client_secret", ""), ("a", "1")], fragment := "" })
        "client_secret" = [""])
    ∧ BareDo (some { done := false, errMsg := "context canceled" })
        (.failure (.urlError "Get"
          { blob := "http://h/p", query := [("client_secret", ""), ("a", "1")], fragment := "" }
          "connection refused"))
      = .error (.transport (.urlError "Get"
          { blob := "http://h/p", query := [("client_secret", ""), ("a", "1")], fragment := "" }
          "connection refused"))
    ∧ Values.get
        (URL.query { blob := "http://h/p", query := [("client_secret", ""), ("a", "1")], fragment := "" })
        "client_secret" ≠ "REDACTED" := by
  exact ⟨by decide, rfl, by decide⟩

/-- C1 (amended: the redaction happens for a `client_secret` parameter
whose value is non-empty; a present-but-empty value is left alone): on a
transport failure carrying a URL whose query has a non-empty
`client_secret` value, the error `BareDo` surfaces holds the sanitized
URL, in which that parameter reads `REDACTED` and every other query
parameter is unaltered. -/
theorem C1_theorem (op msg : String) (u : URL) (ctx : GoContext)
    (hdone : ctx.done = false)
    (hcs : Values.get u.query "client_secret" ≠ "") :
    BareDo (some ctx) (.failure (.urlError op u msg))
      = .error (.transport (.urlError op (sanitizeURL u) msg))
    ∧ Values.get (sanitizeURL u).query "client_secret" = "REDACTED"
    ∧ ∀ k, k ≠ "client_secret" →
        Values.getAll (sanitizeURL u).query k = Values.getAll u.query k := by
  have hlen : 0 < (Values.get u.query "client_secret").length :=
    string_length_pos_of_ne_empty hcs
  refine ⟨by simp [BareDo, hdone], ?_, ?_⟩
  · simp only [sanitizeURL, if_pos hlen]
    exact Values.get_set_self _ _ _
  · intro k hk
    simp only [sanitizeURL, if_pos hlen]
    exact Values.getAll_set_ne _ _ _ _ hk

/-- Witness for C1: a concrete cancelled-free context and a URL carrying
`client_secret=verysecret&scope=admin`. -/
theorem C1_witness :
    BareDo (some { done := false, errMsg := "context canceled" })
        (.failure (.urlError "Get"
          { blob := "http://h/token", query := [("client_secret", "verysecret"), ("scope", "admin")], fragment := "" }
          "connection refused"))
      = .error (.transport (.urlError "Get"
          (sanitizeURL
            { blob := "http://h/token", query := [("client_secret", "verysecret"), ("scope", "admin")], fragment := "" })
          "connection refused"))
    ∧ Values.get
        (sanitizeURL
          { blob := "http://h/token", query := [("client_secret", "verysecret"), ("scope", "admin")], fragment := "" }).query
        "client_secret" = "REDACTED"
    ∧ Values.getAll
        (sanitizeURL
          { blob := "http://h/token", query := [("client_secret", "verysecret"), ("scope", "admin")], fragment := "" }).query
        "scope"
      = Values.getAll
          (URL.query { blob := "http://h/token", query := [("client_secret", "verysecret"), ("scope", "admin")], fragment := "" })
          "scope" := by
  have h := C1_theorem "Get" "connection refused"
    { blob := "http://h/token", query := [("client_secret", "verysecret"), ("scope", "admin")], fragment := "" }
    { done := false, errMsg := "context canceled" } rfl (by decide)
  exact ⟨h.1, h.2.1, h.2.2 "scope" (by decide)⟩

/-! ## C2: context cancellation preferred over transport errors -/

/-- C2: when the transport attempt fails while the supplied context is
already done, `BareDo` — and therefore the list-users operation, which
reaches the transport through `Do`/`BareDo` — returns the context's
cancellation error, not the raw transport error. -/
theorem C2_theorem (ctx : GoContext) (hdone : ctx.done = true)
    (e : TransportError) (c : Client)
    (hslash : endsWithSlash c.baseURL.path = true) :
    BareDo (some ctx) (.failure e) = .error (.ctxErr ctx.errMsg)
    ∧ listUsers c (some ctx) (.failure e) = (none, some (.ctxErr ctx.errMsg)) := by
  have h1 : BareDo (some ctx) (.failure e) = .error (.ctxErr ctx.errMsg) := by
    simp [BareDo, hdone]
  exact ⟨h1, by simp [listUsers, NewRequest, hslash, Do, h1]⟩

/-- Witness for C2: the default client against a cancelled context and a
refused connection. -/
theorem C2_witness :
    BareDo (some { done := true, errMsg := "context canceled" })
        (.failure (.plain "dial tcp: connection refused"))
      = .error (.ctxErr "context canceled")
    ∧ listUsers
        { baseURL := { schemeHost := "http://localhost:5820", path := "/" },
          userAgent := "", basicAuth := none }
        (some { done := true, errMsg := "context canceled" })
        (.failure (.plain "dial tcp: connection refused"))
      = (none, some (.ctxErr "context canceled")) :=
  C2_theorem { done := true, errMsg := "context canceled" } rfl
    (.plain "dial tcp: connection refused")
    { baseURL := { schemeHost := "http://localhost:5820", path := "/" },
      userAgent := "", basicAuth := none }
    (by decide)

/-! ## C4: missing trailing slash is a configuration error -/

/-- C4: for every client whose base-URL path does not end in `/`,
`NewRequest` fails with the configuration error, whatever the method,
path and body (the function builds no transport call — it is pure in
this model, and the Go original performs no I/O either). -/
theorem C4_theorem (c : Client)
    (h : endsWithSlash c.baseURL.path = false)
    (method urlStr : String) (body : Option Json) :
    NewRequest c method urlStr body
      = .error (.configErr ("BaseURL must have a trailing slash, but "
          ++ c.baseURL.schemeHost ++ c.baseURL.path ++ " does not")) := by
  simp [NewRequest, h]

/-- Witness for C4: a base URL whose path is `/stardog` (no trailing
slash). -/
theorem C4_witness :
    NewRequest
      { baseURL := { schemeHost := "http://localhost:5820", path := "/stardog" },
        userAgent := "", basicAuth := none }
      "GET" "admin/users" none
      = .error (.configErr ("BaseURL must have a trailing slash, but "
          ++ "http://localhost:5820" ++ "/stardog" ++ " does not")) :=
  C4_theorem
    { baseURL := { schemeHost := "http://localhost:5820", path := "/stardog" },
      userAgent := "", basicAuth := none }
    (by decide) "GET" "admin/users" none

/-! ## C3: basic-authentication injection -/

/-- C3: every request `NewRequest` builds carries exactly one
`Authorization` header — holding `Basic` followed by the base64 of
`username:password` — when the client's credential pair is set, and no
`Authorization` header at all when it is unset. -/
theorem C3_theorem (c : Client) (method urlStr : String) (body : Option Json)
    (req : Request) (hreq : NewRequest c method urlStr body = .ok req) :
    (∀ ba, c.basicAuth = some ba →
        req.headers.countP (fun p => p.1 = "Authorization") = 1
        ∧ headerLookup req.headers "Authorization"
            = some [basicAuthValue ba.username ba.password])
    ∧ (c.basicAuth = none →
        req.headers.countP (fun p => p.1 = "Authorization") = 0) := by
  by_cases hs : endsWithSlash c.baseURL.path
  · obtain ⟨bu, ua, auth⟩ := c
    obtain ⟨rm, rurl, rh, rb⟩ := req
    cases auth <;> cases body <;> by_cases hua : ua = "" <;>
      simp [NewRequest, hs, hua] at hreq <;>
      obtain ⟨h1, h2, h3, h4⟩ := hreq <;>
      subst h3 <;>
      simp [headerSet, headerLookup, List.countP_cons, List.countP_nil]
  · simp [NewRequest, hs] at hreq

/-- Witness for C3: a concrete authenticated build and a concrete
unauthenticated build. -/
theorem C3_witness :
    ∃ req : Request,
      NewRequest
          { baseURL := { schemeHost := "http://localhost:5820", path := "/" },
            userAgent := "", basicAuth := some { username := "admin", password := "sd" } }
          "GET" "admin/users" none
        = .ok req
      ∧ req.headers.countP (fun p => p.1 = "Authorization") = 1
      ∧ headerLookup req.headers "Authorization"
          = some [basicAuthValue "admin" "sd"] := by
  refine ⟨_, rfl, ?_⟩
  have h := C3_theorem
    { baseURL := { schemeHost := "http://localhost:5820", path := "/" },
      userAgent := "", basicAuth := some { username := "admin", password := "sd" } }
    "GET" "admin/users" none _ rfl
  exact h.1 { username := "admin", password := "sd" } rfl

/-! ## Pagination lemmas -/

theorem applyCursorRel_offset (cur : String) (r : Response) (s : List Char) :
    (applyCursorRel cur r s).NextPage = r.NextPage
    ∧ (applyCursorRel cur r s).PrevPage = r.PrevPage
    ∧ (applyCursorRel cur r s).FirstPage = r.FirstPage
    ∧ (applyCursorRel cur r s).LastPage = r.LastPage
    ∧ (applyCursorRel cur r s).NextPageToken = r.NextPageToken
    ∧ (applyCursorRel cur r s).Before = r.Before
    ∧ (applyCursorRel cur r s).After = r.After := by
  unfold applyCursorRel
  split <;> exact ⟨rfl, rfl, rfl, rfl, rfl, rfl, rfl⟩

theorem foldl_applyCursorRel_offset (cur : String) (segs : List (List Char))
    (r : Response) :
    ((segs.foldl (applyCursorRel cur) r).NextPage = r.NextPage)
    ∧ ((segs.foldl (applyCursorRel cur) r).PrevPage = r.PrevPage)
    ∧ ((segs.foldl (applyCursorRel cur) r).FirstPage = r.FirstPage)
    ∧ ((segs.foldl (applyCursorRel cur) r).LastPage = r.LastPage)
    ∧ ((segs.foldl (applyCursorRel cur) r).NextPageToken = r.NextPageToken)
    ∧ ((segs.foldl (applyCursorRel cur) r).Before = r.Before)
    ∧ ((segs.foldl (applyCursorRel cur) r).After = r.After) := by
  induction segs generalizing r with
  | nil => exact ⟨rfl, rfl, rfl, rfl, rfl, rfl, rfl⟩
  | cons s segs ih =>
      have h1 := applyCursorRel_offset cur r s
      have h2 := ih (applyCursorRel cur r s)
      simp only [List.foldl_cons]
      exact ⟨h2.1.trans h1.1, h2.2.1.trans h1.2.1, h2.2.2.1.trans h1.2.2.1,
        h2.2.2.2.1.trans h1.2.2.2.1, h2.2.2.2.2.1.trans h1.2.2.2.2.1,
        h2.2.2.2.2.2.1.trans h1.2.2.2.2.2.1, h2.2.2.2.2.2.2.trans h1.2.2.2.2.2.2⟩

theorem foldl_applyCursorRel_const (cur : String) (segs : List (List Char))
    (r : Response) (h : r.Cursor = cur) :
    (segs.foldl (applyCursorRel cur) r).Cursor = cur := by
  induction segs generalizing r with
  | nil => exact h
  | cons s segs ih =>
      simp only [List.foldl_cons]
      apply ih
      unfold applyCursorRel
      split
      · rfl
      · exact h

theorem foldl_applyCursorRel_mem (cur : String) (segs : List (List Char))
    (r : Response) (h : ∃ s ∈ segs, trimSpace s = "rel=\"next\"".data) :
    (segs.foldl (applyCursorRel cur) r).Cursor = cur := by
  induction segs generalizing r with
  | nil => obtain ⟨s, hs, _⟩ := h; exact absurd hs (List.not_mem_nil s)
  | cons s segs ih =>
      simp only [List.foldl_cons]
      by_cases hm : trimSpace s = "rel=\"next\"".data
      · apply foldl_applyCursorRel_const
        unfold applyCursorRel
        rw [if_pos hm]
      · apply ih
        obtain ⟨t, ht, htm⟩ := h
        rcases List.mem_cons.mp ht with h1 | h1
        · exact absurd (h1 ▸ htm) hm
        · exact ⟨t, h1, htm⟩

theorem applyRel_cursor (pg bef aft : String) (r : Response) (s : List Char) :
    (applyRel pg bef aft r s).Cursor = r.Cursor := by
  unfold applyRel
  dsimp only
  repeat' split
  all_goals rfl

theorem foldl_applyRel_cursor (pg bef aft : String) (segs : List (List Char))
    (r : Response) :
    (segs.foldl (applyRel pg bef aft) r).Cursor = r.Cursor := by
  induction segs generalizing r with
  | nil => rfl
  | cons s segs ih =>
      simp only [List.foldl_cons]
      exact (ih _).trans (applyRel_cursor pg bef aft r s)

/-! ## C6: cursor-style entries set only the cursor -/

/-- C6: for a link entry whose href carries a non-empty `cursor` query
parameter and whose relation set contains `rel="next"`, processing the
entry sets the cursor field to that parameter's value and leaves every
offset-style field (NextPage, PrevPage, FirstPage, LastPage,
NextPageToken, Before, After) untouched. -/
theorem C6_theorem (r : Response) (link seg0 : List Char)
    (rels : List (List Char))
    (hsegs : splitOnChar ';' (trimSpace link) = seg0 :: rels)
    (hrels : rels ≠ [])
    (hwrap : seg0.head? = some '<' ∧ seg0.getLast? = some '>')
    (hcursor : Values.get (parseURL ((seg0.drop 1).dropLast)).query "cursor" ≠ "")
    (hnext : ∃ seg ∈ rels, trimSpace seg = "rel=\"next\"".data) :
    (processLinkEntry r link).Cursor
        = Values.get (parseURL ((seg0.drop 1).dropLast)).query "cursor"
    ∧ (processLinkEntry r link).NextPage = r.NextPage
    ∧ (processLinkEntry r link).PrevPage = r.PrevPage
    ∧ (processLinkEntry r link).FirstPage = r.FirstPage
    ∧ (processLinkEntry r link).LastPage = r.LastPage
    ∧ (processLinkEntry r link).NextPageToken = r.NextPageToken
    ∧ (processLinkEntry r link).Before = r.Before
    ∧ (processLinkEntry r link).After = r.After := by
  obtain ⟨seg1, rest, rfl⟩ : ∃ seg1 rest, rels = seg1 :: rest := by
    cases rels with
    | nil => exact absurd rfl hrels
    | cons a l => exact ⟨a, l, rfl⟩
  have hpe : processLinkEntry r link
      = (seg1 :: rest).foldl
          (applyCursorRel (Values.get (parseURL ((seg0.drop 1).dropLast)).query "cursor")) r := by
    unfold processLinkEntry
    rw [hsegs]
    dsimp only
    rw [if_pos hwrap, if_pos hcursor]
  rw [hpe]
  exact ⟨foldl_applyCursorRel_mem _ _ _ hnext, foldl_applyCursorRel_offset _ _ _⟩

/-- Witness for C6: the entry `<http://h?cursor=c1>; rel="next"` applied
to a response whose offset fields are populated. -/
theorem C6_witness :
    (processLinkEntry
        { raw := { headers := [], body := "" }, NextPage := 3, Before := "b" }
        " <http://h?cursor=c1>; rel=\"next\"".data).Cursor = "c1"
    ∧ (processLinkEntry
        { raw := { headers := [], body := "" }, NextPage := 3, Before := "b" }
        " <http://h?cursor=c1>; rel=\"next\"".data).NextPage = 3
    ∧ (processLinkEntry
        { raw := { headers := [], body := "" }, NextPage := 3, Before := "b" }
        " <http://h?cursor=c1>; rel=\"next\"".data).Before = "b" := by
  have h := C6_theorem
    { raw := { headers := [], body := "" }, NextPage := 3, Before := "b" }
    " <http://h?cursor=c1>; rel=\"next\"".data
    "<http://h?cursor=c1>".data [" rel=\"next\"".data]
    (by decide) (by decide) (by decide) (by decide)
    ⟨" rel=\"next\"".data, by decide⟩
  exact ⟨h.1, h.2.1, h.2.2.2.2.2.2.1⟩

/-! ## C7: mutual exclusivity of pagination styles -/

/-- C7 (counterexample): the two styles are exclusive only per entry,
not per response: a Link header whose first value mixes a cursor-style
`next` entry with an offset-style `prev` entry populates the cursor
field AND an offset field in the same response wrapper. -/
theorem C7_counterexample :
    (newResponse
        { headers := [("Link",
            ["<http://h?cursor=abc>; rel=\"next\", <http://h?page=7>; rel=\"prev\""])],
          body := "" }).Cursor = "abc"
    ∧ (newResponse
        { headers := [("Link",
            ["<http://h?cursor=abc>; rel=\"next\", <http://h?page=7>; rel=\"prev\""])],
          body := "" }).Cursor ≠ ""
    ∧ (newResponse
        { headers := [("Link",
            ["<http://h?cursor=abc>; rel=\"next\", <http://h?page=7>; rel=\"prev\""])],
          body := "" }).PrevPage = 7
    ∧ (newResponse
        { headers := [("Link",
            ["<http://h?cursor=abc>; rel=\"next\", <http://h?page=7>; rel=\"prev\""])],
          body := "" }).PrevPage ≠ 0 := by
  exact ⟨rfl, by decide, rfl, by decide⟩

/-- C7 (amended: the exclusivity is per link entry — a single entry
populates at most one of the two styles, though different entries of the
same header may populate both): every entry leaves either all
offset-style fields unchanged or the cursor field unchanged. -/
theorem C7_theorem (r : Response) (link : List Char) :
    ((processLinkEntry r link).NextPage = r.NextPage
      ∧ (processLinkEntry r link).PrevPage = r.PrevPage
      ∧ (processLinkEntry r link).FirstPage = r.FirstPage
      ∧ (processLinkEntry r link).LastPage = r.LastPage
      ∧ (processLinkEntry r link).NextPageToken = r.NextPageToken
      ∧ (processLinkEntry r link).Before = r.Before
      ∧ (processLinkEntry r link).After = r.After)
    ∨ (processLinkEntry r link).Cursor = r.Cursor := by
  unfold processLinkEntry
  rcases hsegs : splitOnChar ';' (trimSpace link) with _ | ⟨seg0, _ | ⟨seg1, rest⟩⟩
  · left; exact ⟨rfl, rfl, rfl, rfl, rfl, rfl, rfl⟩
  · left; exact ⟨rfl, rfl, rfl, rfl, rfl, rfl, rfl⟩
  · dsimp only
    by_cases hwrap : seg0.head? = some '<' ∧ seg0.getLast? = some '>'
    · rw [if_pos hwrap]
      by_cases hcur : Values.get (parseURL ((seg0.drop 1).dropLast)).query "cursor" ≠ ""
      · rw [if_pos hcur]
        left
        exact foldl_applyCursorRel_offset _ _ _
      · rw [if_neg hcur]
        by_cases hskip : Values.get (parseURL ((seg0.drop 1).dropLast)).query "page" = ""
            ∧ Values.get (parseURL ((seg0.drop 1).dropLast)).query "before" = ""
            ∧ Values.get (parseURL ((seg0.drop 1).dropLast)).query "after" = ""
            ∧ Values.get (parseURL ((seg0.drop 1).dropLast)).query "since" = ""
        · rw [if_pos hskip]
          right
          rfl
        · rw [if_neg hskip]
          right
          exact foldl_applyRel_cursor _ _ _ _ _
    · rw [if_neg hwrap]
      right
      rfl

/-! ## C5: which link entries are processed -/

theorem splitOnChar_ne_nil (sep : Char) (s : List Char) :
    splitOnChar sep s ≠ [] := by
  cases s with
  | nil => simp [splitOnChar]
  | cons c rest =>
      unfold splitOnChar
      rcases h : splitOnChar sep rest with _ | ⟨g, gs⟩
      · simp
      · by_cases hc : c = sep <;> simp [hc]

theorem splitOnChar_append_sep (sep : Char) (xs ys : List Char) :
    splitOnChar sep (xs ++ sep :: ys)
      = splitOnChar sep xs ++ splitOnChar sep ys := by
  induction xs with
  | nil =>
      simp only [List.nil_append]
      rcases h : splitOnChar sep ys with _ | ⟨g, gs⟩
      · exact absurd h (splitOnChar_ne_nil sep ys)
      · simp only [splitOnChar, h]
        simp
  | cons c xs ih =>
      rcases h : splitOnChar sep xs with _ | ⟨g0, gs0⟩
      · exact absurd h (splitOnChar_ne_nil sep xs)
      · show splitOnChar sep (c :: (xs ++ sep :: ys))
            = splitOnChar sep (c :: xs) ++ splitOnChar sep ys
        simp only [splitOnChar, ih, h, List.cons_append]
        by_cases hc : c = sep <;> simp [hc]

theorem splitOnChar_of_not_contains (sep : Char) (s : List Char)
    (h : s.contains sep = false) : splitOnChar sep s = [s] := by
  induction s with
  | nil => rfl
  | cons c rest ih =>
      simp only [List.contains_cons, Bool.or_eq_false_iff] at h
      unfold splitOnChar
      rw [ih h.2]
      have hc : ¬ c = sep := by
        intro hh
        rw [hh] at h
        simp at h
      simp [hc]

/-- C5 (counterexample): the claim reads the parser as processing every
entry of the Link header SET, but `populatePageValues` only reads
`links[0]`: with Link values `["", "<http://h?page=2>; rel=\"next\""]`
the produced wrapper has `NextPage = 0`, while folding the per-entry
algorithm over the entries of all values would set `NextPage = 2`. -/
theorem C5_counterexample :
    (newResponse
        { headers := [("Link", ["", "<http://h?page=2>; rel=\"next\""])],
          body := "" }).NextPage = 0
    ∧ ((((headerLookup
            (HTTPResponse.headers
              { headers := [("Link", ["", "<http://h?page=2>; rel=\"next\""])],
                body := "" })
            "Link").getD []).map String.data).foldl
          (fun racc l => (splitOnChar ',' l).foldl processLinkEntry racc)
          { raw := { headers := [("Link", ["", "<http://h?page=2>; rel=\"next\""])],
                     body := "" } }).NextPage = 2 := by
  exact ⟨rfl, rfl⟩

/-- C5 (amended: only the FIRST value of the Link header is processed;
its comma-separated entries are all processed, in order, each by the
per-entry algorithm, and any further Link header values are ignored):
the populated wrapper is the left fold of the per-entry step over the
comma-split of `links[0]` — independently of the remaining values — and
appending one more comma-separated entry to that first value applies the
per-entry step exactly once on top of the previous fold. -/
theorem C5_theorem (raw : HTTPResponse) (v : String) (vs : List String)
    (h : headerLookup raw.headers "Link" = some (v :: vs)) :
    populatePageValues { raw := raw }
        = (splitOnChar ',' v.data).foldl processLinkEntry { raw := raw }
    ∧ ∀ (raw₂ : HTTPResponse) (e : String),
        headerLookup raw₂.headers "Link" = some ((v ++ "," ++ e) :: vs) →
        e.data.contains ',' = false →
        populatePageValues { raw := raw₂ }
          = processLinkEntry
              ((splitOnChar ',' v.data).foldl processLinkEntry { raw := raw₂ })
              e.data := by
  constructor
  · simp only [populatePageValues, h]
  · intro raw₂ e he hcomma
    simp only [populatePageValues, he]
    have hdata : (v ++ "," ++ e).data = v.data ++ ',' :: e.data := by
      show (v.data ++ [','] ++ e.data : List Char) = _
      simp
    rw [hdata, splitOnChar_append_sep,
      splitOnChar_of_not_contains ',' e.data hcomma, List.foldl_append]
    rfl

/-- Witness for C5: a Link header with a processed first value and an
ignored second value, then the same first value extended by one more
entry. -/
theorem C5_witness :
    populatePageValues
        { raw :=
            { headers := [("Link",
                ["<http://h?page=2>; rel=\"next\"", "<http://h?page=9>; rel=\"last\""])],
              body := "" } }
      = (splitOnChar ',' "<http://h?page=2>; rel=\"next\"".data).foldl
          processLinkEntry
          { raw :=
              { headers := [("Link",
                  ["<http://h?page=2>; rel=\"next\"", "<http://h?page=9>; rel=\"last\""])],
                body := "" } }
    ∧ populatePageValues
        { raw :=
            { headers := [("Link",
                ["<http://h?page=2>; rel=\"next\"" ++ "," ++ "<http://h?page=5>; rel=\"prev\"",
                 "<http://h?page=9>; rel=\"last\""])],
              body := "" } }
      = processLinkEntry
          ((splitOnChar ',' "<http://h?page=2>; rel=\"next\"".data).foldl
            processLinkEntry
            { raw :=
                { headers := [("Link",
                    ["<http://h?page=2>; rel=\"next\"" ++ "," ++ "<http://h?page=5>; rel=\"prev\"",
                     "<http://h?page=9>; rel=\"last\""])],
                  body := "" } })
          "<http://h?page=5>; rel=\"prev\"".data := by
  have h := C5_theorem
    { headers := [("Link",
        ["<http://h?page=2>; rel=\"next\"", "<http://h?page=9>; rel=\"last\""])],
      body := "" }
    "<http://h?page=2>; rel=\"next\"" ["<http://h?page=9>; rel=\"last\""] rfl
  exact ⟨h.1,
    h.2
      { headers := [("Link",
          ["<http://h?page=2>; rel=\"next\"" ++ "," ++ "<http://h?page=5>; rel=\"prev\"",
           "<http://h?page=9>; rel=\"last\""])],
        body := "" }
      "<http://h?page=5>; rel=\"prev\"" rfl (by decide)⟩

/-! ## Digits and number round-trip -/

theorem digitChar_isDigit : ∀ d, d < 10 → (Nat.digitChar d).isDigit = true := by
  decide

theorem digitChar_toNat : ∀ d, d < 10 → (Nat.digitChar d).toNat = d + 48 := by
  decide

theorem char_isDigit_facts (c : Char) (h : c.isDigit = true) :
    c.isWhitespace = false ∧ c ≠ 'n' ∧ c ≠ 't' ∧ c ≠ 'f' ∧ c ≠ '"'
    ∧ c ≠ '[' ∧ c ≠ ']' ∧ c ≠ lBrace ∧ c ≠ rBrace ∧ c ≠ '-' ∧ c ≠ ','
    ∧ c ≠ ':' ∧ c ≠ '\\' := by
  refine ⟨?_, ?_, ?_, ?_, ?_, ?_, ?_, ?_, ?_, ?_, ?_, ?_, ?_⟩
  · cases hw : c.isWhitespace
    · rfl
    · simp only [Char.isWhitespace, Bool.or_eq_true, decide_eq_true_eq] at hw
      have hw' : c = ' ' ∨ c = '\t' ∨ c = '\r' ∨ c = '\n' := by tauto
      rcases hw' with hc | hc | hc | hc <;> subst hc <;> exact absurd h (by decide)
  all_goals intro heq; subst heq; exact absurd h (by decide)

theorem encodeNat_ne_nil (n : Nat) : encodeNat n ≠ [] := by
  unfold encodeNat
  by_cases hn : n = 0
  · simp [hn]
  · have hd : Nat.digits 10 n ≠ [] := Nat.digits_ne_nil_iff_ne_zero.mpr hn
    simp [hn, hd]

theorem encodeNat_all_digits (n : Nat) : ∀ c ∈ encodeNat n, c.isDigit = true := by
  unfold encodeNat
  by_cases hn : n = 0
  · simp [hn]
  · simp only [hn, if_false, ite_false]
    intro c hc
    rw [List.mem_reverse, List.mem_map] at hc
    obtain ⟨d, hd, rfl⟩ := hc
    exact digitChar_isDigit d (Nat.digits_lt_base (by norm_num) hd)

theorem digitsVal_fold_aux (l : List Nat) (hl : ∀ d ∈ l, d < 10) (a : Nat) :
    ((l.map Nat.digitChar).reverse).foldl (fun acc c => 10 * acc + (c.toNat - 48)) a
      = a * 10 ^ l.length + Nat.ofDigits 10 l := by
  induction l generalizing a with
  | nil => simp
  | cons d l ih =>
      have hd : d < 10 := hl d (List.mem_cons_self d l)
      have hdl : ∀ e ∈ l, e < 10 := fun e he => hl e (List.mem_cons_of_mem d he)
      rw [List.map_cons, List.reverse_cons, List.foldl_append, ih hdl a]
      simp only [List.foldl_cons, List.foldl_nil]
      rw [digitChar_toNat d hd, Nat.ofDigits_cons]
      have h48 : d + 48 - 48 = d := by omega
      rw [h48, List.length_cons, pow_succ]
      ring

theorem digitsVal_encodeNat (n : Nat) : digitsVal (encodeNat n) = n := by
  unfold encodeNat digitsVal
  by_cases hn : n = 0
  · simp [hn, digitsVal]
  · simp only [hn, if_false, ite_false]
    rw [digitsVal_fold_aux (Nat.digits 10 n)
      (fun d hd => Nat.digits_lt_base (by norm_num) hd) 0]
    simp [Nat.ofDigits_digits]

theorem takeWhile_dropWhile_append (p : Char → Bool) (l1 l2 : List Char)
    (h1 : ∀ a ∈ l1, p a = true)
    (h2 : ∀ c, l2.head? = some c → p c = false) :
    (l1 ++ l2).takeWhile p = l1 ∧ (l1 ++ l2).dropWhile p = l2 := by
  induction l1 with
  | nil =>
      simp only [List.nil_append]
      cases l2 with
      | nil => simp
      | cons c l => simp [List.takeWhile_cons, List.dropWhile_cons, h2 c rfl]
  | cons a l1 ih =>
      have ha := h1 a (List.mem_cons_self a l1)
      have hrest := ih (fun b hb => h1 b (List.mem_cons_of_mem a hb))
      simp [List.takeWhile_cons, List.dropWhile_cons, ha, hrest.1, hrest.2]

theorem skipWs_cons (c : Char) (l : List Char) (h : c.isWhitespace = false) :
    skipWs (c :: l) = c :: l := by
  simp [skipWs, List.dropWhile_cons, h]

theorem encodeNat_head (n : Nat) :
    ∃ c cs, encodeNat n = c :: cs ∧ c.isDigit = true := by
  rcases h : encodeNat n with _ | ⟨c, cs⟩
  · exact absurd h (encodeNat_ne_nil n)
  · exact ⟨c, cs, rfl, encodeNat_all_digits n c (h ▸ List.mem_cons_self c cs)⟩

theorem parseNat_encodeNat (n : Nat) (rest : List Char)
    (hrest : headNotDigit rest) :
    parseNat (encodeNat n ++ rest) = some (n, rest) := by
  unfold parseNat
  have h := takeWhile_dropWhile_append Char.isDigit (encodeNat n) rest
    (encodeNat_all_digits n) hrest
  rw [h.1, h.2]
  simp [encodeNat_ne_nil n, digitsVal_encodeNat n]

theorem parseNum_encodeInt (n : Int) (rest : List Char)
    (hrest : headNotDigit rest) :
    parseNum (encodeInt n ++ rest) = some (.num n, rest) := by
  by_cases hn : n < 0
  · simp only [encodeInt, if_pos hn, List.cons_append]
    simp only [parseNum]
    rw [parseNat_encodeNat _ _ hrest]
    simp [abs_of_neg hn]
  · obtain ⟨c, cs, hc, hcd⟩ := encodeNat_head n.toNat
    have hfacts := char_isDigit_facts c hcd
    simp only [encodeInt, if_neg hn]
    rw [hc, List.cons_append]
    unfold parseNum
    split
    · rename_i r heq
      injection heq with hch hr
      exact absurd hch hfacts.2.2.2.2.2.2.2.2.2.1
    · rw [← List.cons_append, ← hc, parseNat_encodeNat _ _ hrest]
      have : ((n.toNat : Int)) = n := by omega
      simp [this]

/-! ## String-literal round-trip -/

theorem unhex_hexChar : ∀ x, x < 16 → unhexDigit (hexChar x) = some x := by
  decide

theorem parseStrBody_encode (cs rest : List Char) :
    parseStrBody (encodeStrBody cs ++ '"' :: rest) = some (cs, rest) := by
  induction cs with
  | nil =>
      show parseStrBody ('"' :: rest) = some ([], rest)
      rw [parseStrBody.eq_def]
      simp
  | cons c cs ih =>
      show parseStrBody ((encodeStringChar c ++ encodeStrBody cs) ++ '"' :: rest) = _
      rw [List.append_assoc]
      by_cases h1 : c = '"'
      · subst h1
        rw [show encodeStringChar '"' = ['\\', '"'] from by decide]
        rw [List.cons_append, List.cons_append, List.nil_append,
          parseStrBody.eq_def]
        simp [escChar, ih]
      · by_cases h2 : c = '\\'
        · subst h2
          rw [show encodeStringChar '\\' = ['\\', '\\'] from by decide]
          rw [List.cons_append, List.cons_append, List.nil_append,
            parseStrBody.eq_def]
          simp [escChar, ih]
        · by_cases h3 : c = '\n'
          · subst h3
            rw [show encodeStringChar '\n' = ['\\', 'n'] from by decide]
            rw [List.cons_append, List.cons_append, List.nil_append,
              parseStrBody.eq_def]
            simp [escChar, ih]
          · by_cases h4 : c = '\r'
            · subst h4
              rw [show encodeStringChar '\r' = ['\\', 'r'] from by decide]
              rw [List.cons_append, List.cons_append, List.nil_append,
                parseStrBody.eq_def]
              simp [escChar, ih]
            · by_cases h5 : c = '\t'
              · subst h5
                rw [show encodeStringChar '\t' = ['\\', 't'] from by decide]
                rw [List.cons_append, List.cons_append, List.nil_append,
                  parseStrBody.eq_def]
                simp [escChar, ih]
              · by_cases h6 : c.toNat < 32
                · have henc : encodeStringChar c
                      = ['\\', 'u', '0', '0', hexChar (c.toNat / 16),
                         hexChar (c.toNat % 16)] := by
                    unfold encodeStringChar
                    rw [if_neg h1, if_neg h2, if_neg h3, if_neg h4, if_neg h5,
                      if_pos h6]
                  rw [henc]
                  have hd1 : c.toNat / 16 < 16 := by omega
                  have hd2 : c.toNat % 16 < 16 := by omega
                  simp only [List.cons_append, List.nil_append]
                  rw [parseStrBody.eq_def]
                  simp [unhex_hexChar _ hd1, unhex_hexChar _ hd2, ih,
                    show unhexDigit '0' = some 0 from by decide]
                  rw [show 16 * (c.toNat / 16) + c.toNat % 16 = c.toNat from by omega,
                    Char.ofNat_toNat]
                · by_cases h7 : c.toNat = 8232
                  · have henc : encodeStringChar c
                        = ['\\', 'u', '2', '0', '2', '8'] := by
                      unfold encodeStringChar
                      rw [if_neg h1, if_neg h2, if_neg h3, if_neg h4, if_neg h5,
                        if_neg h6, if_pos h7]
                    rw [henc]
                    simp only [List.cons_append, List.nil_append]
                    rw [parseStrBody.eq_def]
                    simp [ih, show unhexDigit '0' = some 0 from by decide,
                      show unhexDigit '2' = some 2 from by decide]
                    rw [show unhexDigit '8' = some 8 from by decide]
                    have hch : Char.ofNat (8224 + 8) = c := by
                      rw [show (8224 + 8 : Nat) = 8232 from by norm_num, ← h7,
                        Char.ofNat_toNat]
                    simp [hch]
                  · by_cases h8 : c.toNat = 8233
                    · have henc : encodeStringChar c
                          = ['\\', 'u', '2', '0', '2', '9'] := by
                        unfold encodeStringChar
                        rw [if_neg h1, if_neg h2, if_neg h3, if_neg h4, if_neg h5,
                          if_neg h6, if_neg h7, if_pos h8]
                      rw [henc]
                      simp only [List.cons_append, List.nil_append]
                      rw [parseStrBody.eq_def]
                      simp [ih, show unhexDigit '0' = some 0 from by decide,
                        show unhexDigit '2' = some 2 from by decide]
                      rw [show unhexDigit '9' = some 9 from by decide]
                      have hch : Char.ofNat (8224 + 9) = c := by
                        rw [show (8224 + 9 : Nat) = 8233 from by norm_num, ← h8,
                          Char.ofNat_toNat]
                      simp [hch]
                    · have henc : encodeStringChar c = [c] := by
                        unfold encodeStringChar
                        rw [if_neg h1, if_neg h2, if_neg h3, if_neg h4, if_neg h5,
                          if_neg h6, if_neg h7, if_neg h8]
                      rw [henc, List.cons_append, List.nil_append,
                        parseStrBody.eq_def]
                      simp [h1, h2, h6, ih]

/-! ## Value round-trip -/

theorem String_mk_data (s : String) : String.mk s.data = s := rfl

theorem headNotDigit_cons {c : Char} (l : List Char) (h : c.isDigit = false) :
    headNotDigit (c :: l) := by
  intro d hd
  rw [List.head?_cons] at hd
  injection hd with h'
  subst h'
  exact h

theorem dropLit_exact (lit s : List Char) : dropLit lit (lit ++ s) = some s := by
  induction lit with
  | nil => rfl
  | cons l ls ih => simp [dropLit, ih]

theorem encodeJson_head (v : Json) :
    ∃ c cs, encodeJson v = c :: cs ∧ c.isWhitespace = false
      ∧ c ≠ ']' ∧ c ≠ rBrace := by
  cases v with
  | null => exact ⟨'n', _, rfl, by decide, by decide, by decide⟩
  | bool b =>
      cases b with
      | false => exact ⟨'f', _, rfl, by decide, by decide, by decide⟩
      | true => exact ⟨'t', _, rfl, by decide, by decide, by decide⟩
  | num n =>
      by_cases hn : n < 0
      · exact ⟨'-', encodeNat n.natAbs, by simp [encodeJson, encodeInt, hn],
          by decide, by decide, by decide⟩
      · obtain ⟨c, cs, hc, hcd⟩ := encodeNat_head n.toNat
        have hf := char_isDigit_facts c hcd
        exact ⟨c, cs, by simp [encodeJson, encodeInt, hn, hc],
          hf.1, hf.2.2.2.2.2.2.1, hf.2.2.2.2.2.2.2.2.1⟩
  | str s => exact ⟨'"', _, rfl, by decide, by decide, by decide⟩
  | arr xs => exact ⟨'[', _, rfl, by decide, by decide, by decide⟩
  | obj kvs => exact ⟨lBrace, _, rfl, by decide, by decide, by decide⟩

theorem encodeJson_length_pos (v : Json) : 1 ≤ (encodeJson v).length := by
  obtain ⟨c, cs, hc, -⟩ := encodeJson_head v
  rw [hc]
  simp

theorem parse_encode (f : Nat) :
    (∀ (v : Json) (rest : List Char),
        (encodeJson v).length ≤ f → headNotDigit rest →
        parseVal f (encodeJson v ++ rest) = some (v, rest))
    ∧ (∀ (xs : List Json) (rest : List Char), xs ≠ [] →
        (encodeElems xs).length + 1 ≤ f →
        parseElems f (encodeElems xs ++ ']' :: rest) = some (xs, rest))
    ∧ (∀ (kvs : List (String × Json)) (rest : List Char), kvs ≠ [] →
        (encodeMembers kvs).length + 1 ≤ f →
        parseMembers f (encodeMembers kvs ++ rBrace :: rest) = some (kvs, rest)) := by
  induction f with
  | zero =>
      refine ⟨fun v rest hlen _ => ?_, fun xs rest hne hlen => ?_,
        fun kvs rest hne hlen => ?_⟩
      · have := encodeJson_length_pos v
        omega
      · omega
      · omega
  | succ f ih =>
      obtain ⟨ihv, ihe, ihm⟩ := ih
      refine ⟨fun v rest hlen hrest => ?_, fun xs rest hne hlen => ?_,
        fun kvs rest hne hlen => ?_⟩
      · cases v with
        | null =>
            show parseVal (f + 1) (('n' :: "ull".data) ++ rest) = some (.null, rest)
            rw [List.cons_append]
            simp only [parseVal]
            rw [skipWs_cons _ _ (by decide)]
            simp [dropLit]
        | bool b =>
            cases b with
            | true =>
                show parseVal (f + 1) (('t' :: "rue".data) ++ rest)
                    = some (.bool true, rest)
                rw [List.cons_append]
                simp only [parseVal]
                rw [skipWs_cons _ _ (by decide)]
                simp [dropLit]
            | false =>
                show parseVal (f + 1) (('f' :: "alse".data) ++ rest)
                    = some (.bool false, rest)
                rw [List.cons_append]
                simp only [parseVal]
                rw [skipWs_cons _ _ (by decide)]
                simp [dropLit]
        | str s =>
            show parseVal (f + 1)
                (('"' :: (encodeStrBody s.data ++ ['"'])) ++ rest)
                = some (.str s, rest)
            rw [List.cons_append, List.append_assoc, List.singleton_append]
            simp only [parseVal]
            rw [skipWs_cons _ _ (by decide)]
            simp [parseStrBody_encode, String_mk_data]
        | num n =>
            show parseVal (f + 1) (encodeInt n ++ rest) = some (.num n, rest)
            by_cases hn : n < 0
            · have henc : encodeInt n = '-' :: encodeNat n.natAbs := by
                simp [encodeInt, hn]
              rw [henc, List.cons_append]
              simp only [parseVal]
              rw [skipWs_cons _ _ (by decide)]
              simp only [show (('-' : Char) = 'n') = False from by simp,
                show (('-' : Char) = 't') = False from by simp,
                show (('-' : Char) = 'f') = False from by simp,
                show (('-' : Char) = '"') = False from by simp,
                show (('-' : Char) = '[') = False from by simp,
                show (('-' : Char) = lBrace) = False from by simp [lBrace],
                if_false]
              rw [← List.cons_append, ← henc]
              exact parseNum_encodeInt n rest hrest
            · obtain ⟨c, cs, hc, hcd⟩ := encodeNat_head n.toNat
              have hf := char_isDigit_facts c hcd
              have henc : encodeInt n = c :: cs := by simp [encodeInt, hn, hc]
              rw [henc, List.cons_append]
              simp only [parseVal]
              rw [skipWs_cons _ _ hf.1]
              simp only [show (c = 'n') = False from by simp [hf.2.1],
                show (c = 't') = False from by simp [hf.2.2.1],
                show (c = 'f') = False from by simp [hf.2.2.2.1],
                show (c = '"') = False from by simp [hf.2.2.2.2.1],
                show (c = '[') = False from by simp [hf.2.2.2.2.2.1],
                show (c = lBrace) = False from by simp [hf.2.2.2.2.2.2.2.1],
                if_false]
              rw [← List.cons_append, ← henc]
              exact parseNum_encodeInt n rest hrest
        | arr xs =>
            cases xs with
            | nil =>
                show parseVal (f + 1) (('[' :: (encodeElems [] ++ [']'])) ++ rest)
                    = some (.arr [], rest)
                simp only [encodeElems, List.nil_append]
                rw [List.cons_append, List.singleton_append]
                simp only [parseVal]
                rw [skipWs_cons _ _ (by decide)]
                have hsw : skipWs (']' :: rest) = ']' :: rest :=
                  skipWs_cons _ _ (by decide)
                simp [hsw]
            | cons x xs' =>
                obtain ⟨c, cs, hc, hcw, hcbr, hcrb⟩ := encodeJson_head x
                have hE : ∃ cs2, encodeElems (x :: xs') = c :: cs2 := by
                  cases xs' with
                  | nil => exact ⟨cs, by simp [encodeElems, hc]⟩
                  | cons y ys =>
                      exact ⟨cs ++ ',' :: encodeElems (y :: ys),
                        by simp [encodeElems, hc]⟩
                obtain ⟨cs2, hE⟩ := hE
                have hlenarr : (encodeJson (.arr (x :: xs'))).length
                    = (encodeElems (x :: xs')).length + 2 := by
                  show ('[' :: (encodeElems (x :: xs') ++ [']'])).length = _
                  simp
                have hlen' : (encodeElems (x :: xs')).length + 1 ≤ f := by omega
                show parseVal (f + 1)
                    (('[' :: (encodeElems (x :: xs') ++ [']'])) ++ rest) = _
                rw [List.cons_append, List.append_assoc, List.singleton_append]
                simp only [parseVal]
                rw [skipWs_cons _ _ (by decide)]
                have hsw2 : skipWs (encodeElems (x :: xs') ++ ']' :: rest)
                    = c :: (cs2 ++ ']' :: rest) := by
                  rw [hE, List.cons_append]
                  exact skipWs_cons _ _ hcw
                simp only [hsw2]
                simp [hcbr, ihe (x :: xs') rest (by simp) hlen']
        | obj kvs =>
            cases kvs with
            | nil =>
                show parseVal (f + 1)
                    ((lBrace :: (encodeMembers [] ++ [rBrace])) ++ rest)
                    = some (.obj [], rest)
                simp only [encodeMembers, List.nil_append]
                rw [List.cons_append, List.singleton_append]
                simp only [parseVal]
                rw [skipWs_cons _ _ (by decide)]
                have hsw : skipWs (rBrace :: rest) = rBrace :: rest :=
                  skipWs_cons _ _ (by decide)
                simp [hsw, show lBrace ≠ 'n' from by decide,
                  show lBrace ≠ 't' from by decide,
                  show lBrace ≠ 'f' from by decide,
                  show lBrace ≠ '"' from by decide,
                  show lBrace ≠ '[' from by decide]
            | cons kv kvs' =>
                obtain ⟨k, v⟩ := kv
                have hE : ∃ cs2, encodeMembers ((k, v) :: kvs') = '"' :: cs2 := by
                  cases kvs' with
                  | nil =>
                      exact ⟨(encodeStrBody k.data ++ ['"']) ++ ':' :: encodeJson v,
                        by simp [encodeMembers]⟩
                  | cons kv2 ks =>
                      exact ⟨(encodeStrBody k.data ++ ['"']) ++ ':' :: encodeJson v
                          ++ ',' :: encodeMembers (kv2 :: ks),
                        by simp [encodeMembers]⟩
                obtain ⟨cs2, hE⟩ := hE
                have hlenobj : (encodeJson (.obj ((k, v) :: kvs'))).length
                    = (encodeMembers ((k, v) :: kvs')).length + 2 := by
                  show (lBrace :: (encodeMembers ((k, v) :: kvs') ++ [rBrace])).length
                      = _
                  simp
                have hlen' : (encodeMembers ((k, v) :: kvs')).length + 1 ≤ f := by
                  omega
                show parseVal (f + 1)
                    ((lBrace :: (encodeMembers ((k, v) :: kvs') ++ [rBrace])) ++ rest)
                    = _
                rw [List.cons_append, List.append_assoc, List.singleton_append]
                simp only [parseVal]
                rw [skipWs_cons _ _ (by decide)]
                have hsw2 : skipWs (encodeMembers ((k, v) :: kvs') ++ rBrace :: rest)
                    = '"' :: (cs2 ++ rBrace :: rest) := by
                  rw [hE, List.cons_append]
                  exact skipWs_cons _ _ (by decide)
                simp only [hsw2]
                simp [show lBrace ≠ 'n' from by decide,
                  show lBrace ≠ 't' from by decide,
                  show lBrace ≠ 'f' from by decide,
                  show lBrace ≠ '"' from by decide,
                  show lBrace ≠ '[' from by decide,
                  show ('"' : Char) ≠ rBrace from by decide,
                  ihm ((k, v) :: kvs') rest (by simp) hlen']
      · cases xs with
        | nil => exact absurd rfl hne
        | cons x xs' =>
            cases xs' with
            | nil =>
                have hlenE : (encodeElems [x]).length = (encodeJson x).length := by
                  simp [encodeElems]
                have hflen : (encodeJson x).length ≤ f := by omega
                show parseElems (f + 1) (encodeElems [x] ++ ']' :: rest)
                    = some ([x], rest)
                rw [show encodeElems [x] = encodeJson x from by simp [encodeElems]]
                simp only [parseElems]
                rw [ihv x (']' :: rest) hflen (headNotDigit_cons _ (by decide))]
                have hsw : skipWs (']' :: rest) = ']' :: rest :=
                  skipWs_cons _ _ (by decide)
                simp [hsw]
            | cons y ys =>
                have hlenE : (encodeElems (x :: y :: ys)).length
                    = (encodeJson x).length + 1 + (encodeElems (y :: ys)).length := by
                  simp [encodeElems]
                  omega
                have hflen : (encodeJson x).length ≤ f := by omega
                have hflen2 : (encodeElems (y :: ys)).length + 1 ≤ f := by omega
                show parseElems (f + 1) (encodeElems (x :: y :: ys) ++ ']' :: rest)
                    = some (x :: y :: ys, rest)
                rw [show encodeElems (x :: y :: ys)
                    = encodeJson x ++ ',' :: encodeElems (y :: ys) from by
                  simp [encodeElems]]
                rw [List.append_assoc, List.cons_append]
                simp only [parseElems]
                rw [ihv x (',' :: (encodeElems (y :: ys) ++ ']' :: rest)) hflen
                  (headNotDigit_cons _ (by decide))]
                have hsw : skipWs (',' :: (encodeElems (y :: ys) ++ ']' :: rest))
                    = ',' :: (encodeElems (y :: ys) ++ ']' :: rest) :=
                  skipWs_cons _ _ (by decide)
                simp [hsw, ihe (y :: ys) rest (by simp) hflen2]
      · cases kvs with
        | nil => exact absurd rfl hne
        | cons kv kvs' =>
            obtain ⟨k, v⟩ := kv
            cases kvs' with
            | nil =>
                have hlenM : (encodeMembers [(k, v)]).length
                    = (encodeStrBody k.data).length + 3 + (encodeJson v).length := by
                  simp [encodeMembers]
                  omega
                have hflen : (encodeJson v).length ≤ f := by omega
                show parseMembers (f + 1) (encodeMembers [(k, v)] ++ rBrace :: rest)
                    = some ([(k, v)], rest)
                have hM : encodeMembers [(k, v)] ++ rBrace :: rest
                    = '"' :: (encodeStrBody k.data
                        ++ '"' :: (':' :: (encodeJson v ++ rBrace :: rest))) := by
                  simp [encodeMembers]
                rw [hM]
                simp only [parseMembers]
                rw [skipWs_cons _ _ (by decide)]
                have hswc : ∀ l : List Char, skipWs (':' :: l) = ':' :: l :=
                  fun l => skipWs_cons _ _ (by decide)
                have hswr : ∀ l : List Char, skipWs (rBrace :: l) = rBrace :: l :=
                  fun l => skipWs_cons _ _ (by decide)
                simp [parseStrBody_encode, hswc, hswr,
                  ihv v (rBrace :: rest) hflen (headNotDigit_cons _ (by decide)),
                  show rBrace ≠ ',' from by decide, String_mk_data]
            | cons kv2 ks =>
                have hlenM : (encodeMembers ((k, v) :: kv2 :: ks)).length
                    = (encodeStrBody k.data).length + 4 + (encodeJson v).length
                      + (encodeMembers (kv2 :: ks)).length := by
                  simp [encodeMembers]
                  omega
                have hflen : (encodeJson v).length ≤ f := by omega
                have hflen2 : (encodeMembers (kv2 :: ks)).length + 1 ≤ f := by omega
                show parseMembers (f + 1)
                    (encodeMembers ((k, v) :: kv2 :: ks) ++ rBrace :: rest)
                    = some ((k, v) :: kv2 :: ks, rest)
                have hM : encodeMembers ((k, v) :: kv2 :: ks) ++ rBrace :: rest
                    = '"' :: (encodeStrBody k.data
                        ++ '"' :: (':' :: (encodeJson v
                            ++ ',' :: (encodeMembers (kv2 :: ks)
                                ++ rBrace :: rest)))) := by
                  simp [encodeMembers]
                rw [hM]
                simp only [parseMembers]
                rw [skipWs_cons _ _ (by decide)]
                have hswc : ∀ l : List Char, skipWs (':' :: l) = ':' :: l :=
                  fun l => skipWs_cons _ _ (by decide)
                have hswm : ∀ l : List Char, skipWs (',' :: l) = ',' :: l :=
                  fun l => skipWs_cons _ _ (by decide)
                simp [parseStrBody_encode, hswc, hswm,
                  ihv v (',' :: (encodeMembers (kv2 :: ks) ++ rBrace :: rest)) hflen
                    (headNotDigit_cons _ (by decide)),
                  ihm (kv2 :: ks) rest (by simp) hflen2, String_mk_data]

theorem decodeJson_encode (v : Json) :
    decodeJson (encodeJson v ++ ['\n']) = some v := by
  unfold decodeJson
  have h := (parse_encode ((encodeJson v ++ ['\n']).length + 1)).1 v ['\n']
    (by simp; omega) (headNotDigit_cons _ (by decide))
  rw [h]
  rfl

theorem applyCursorRel_raw (cur : String) (r : Response) (s : List Char) :
    (applyCursorRel cur r s).raw = r.raw := by
  unfold applyCursorRel
  split <;> rfl

theorem applyRel_raw (pg bef aft : String) (r : Response) (s : List Char) :
    (applyRel pg bef aft r s).raw = r.raw := by
  unfold applyRel
  dsimp only
  repeat' split
  all_goals rfl

theorem processLinkEntry_raw (r : Response) (link : List Char) :
    (processLinkEntry r link).raw = r.raw := by
  unfold processLinkEntry
  rcases splitOnChar ';' (trimSpace link) with _ | ⟨seg0, _ | ⟨seg1, rest⟩⟩
  · rfl
  · rfl
  · dsimp only
    split
    · split
      · generalize hr : (r : Response) = r0
        subst hr
        induction (seg1 :: rest) generalizing r with
        | nil => rfl
        | cons s segs ih => rw [List.foldl_cons]; rw [ih]; exact applyCursorRel_raw _ _ _
      · split
        · rfl
        · induction (seg1 :: rest) generalizing r with
          | nil => rfl
          | cons s segs ih => rw [List.foldl_cons]; rw [ih]; exact applyRel_raw _ _ _ _ _
    · rfl

theorem populatePageValues_raw (r : Response) :
    (populatePageValues r).raw = r.raw := by
  unfold populatePageValues
  rcases headerLookup r.raw.headers "Link" with _ | ⟨_ | ⟨l0, ls⟩⟩
  · rfl
  · rfl
  · dsimp only
    induction (splitOnChar ',' l0.data) generalizing r with
    | nil => rfl
    | cons e es ih => rw [List.foldl_cons]; rw [ih]; exact processLinkEntry_raw _ _

theorem newResponse_raw (raw : HTTPResponse) : (newResponse raw).raw = raw :=
  populatePageValues_raw { raw := raw }

/-! ## C9: body serialization round-trip -/

/-- C9: the body `NewRequest` serializes (a JSON value encoded without
HTML escaping, newline-terminated by the encoder) decodes back, via the
same JSON reader `Do` uses, to a value equal to the original body. -/
theorem C9_theorem (c : Client) (method urlStr : String) (v : Json)
    (req : Request) (hreq : NewRequest c method urlStr (some v) = .ok req) :
    req.body = some (encodeJson v ++ ['\n'])
    ∧ decodeJson (encodeJson v ++ ['\n']) = some v := by
  refine ⟨?_, decodeJson_encode v⟩
  by_cases hs : endsWithSlash c.baseURL.path
  · obtain ⟨bu, ua, auth⟩ := c
    obtain ⟨rm, rurl, rh, rb⟩ := req
    cases auth <;> by_cases hua : ua = "" <;>
      simp [NewRequest, hs, hua] at hreq <;>
      obtain ⟨h1, h2, h3, h4⟩ := hreq <;>
      simp [← h4]
  · simp [NewRequest, hs] at hreq

/-- Witness for C9: a concrete object body round-trips through a
concrete build. -/
theorem C9_witness :
    ∃ req : Request,
      NewRequest
          { baseURL := { schemeHost := "http://localhost:5820", path := "/" },
            userAgent := "", basicAuth := none }
          "POST" "admin/users" (some (.obj [("users", .arr [.str "admin"])]))
        = .ok req
      ∧ req.body = some (encodeJson (.obj [("users", .arr [.str "admin"])]) ++ ['\n'])
      ∧ decodeJson (encodeJson (.obj [("users", .arr [.str "admin"])]) ++ ['\n'])
          = some (.obj [("users", .arr [.str "admin"])]) := by
  refine ⟨_, rfl, ?_⟩
  exact C9_theorem
    { baseURL := { schemeHost := "http://localhost:5820", path := "/" },
      userAgent := "", basicAuth := none }
    "POST" "admin/users" (.obj [("users", .arr [.str "admin"])]) _ rfl

/-! ## C8: empty bodies are not decode errors -/

/-- C8: decoding into a typed destination: an empty response body yields
no error and leaves the destination untouched (the `io.EOF` exemption);
a non-empty body whose first value does not parse is surfaced as a
decode error. -/
theorem C8_theorem (ctx : GoContext) (resp : HTTPResponse)
    (prior : Option Json) :
    (resp.body = "" →
        (Do (some ctx) (.success resp) (.typed prior)).err = none
        ∧ (Do (some ctx) (.success resp) (.typed prior)).target = .typed prior)
    ∧ (skipWs resp.body.data ≠ [] → decodeJson resp.body.data = none →
        (Do (some ctx) (.success resp) (.typed prior)).err
          = some (.decodeErr resp.body)) := by
  constructor
  · intro hb
    simp [Do, BareDo, decodeBody, hb, skipWs, newResponse_raw]
  · intro hne hfail
    rcases h : skipWs resp.body.data with _ | ⟨c, r⟩
    · exact absurd h hne
    · simp [Do, BareDo, decodeBody, h, hfail, newResponse_raw]

/-- Witness for C8: an empty body leaves a populated prior value and no
error; the body `"x"` is a decode error. -/
theorem C8_witness :
    ((Do (some { done := false, errMsg := "" })
        (.success { headers := [], body := "" })
        (.typed (some (.num 1)))).err = none
      ∧ (Do (some { done := false, errMsg := "" })
          (.success { headers := [], body := "" })
          (.typed (some (.num 1)))).target = .typed (some (.num 1)))
    ∧ (Do (some { done := false, errMsg := "" })
        (.success { headers := [], body := "x" })
        (.typed none)).err = some (.decodeErr "x") := by
  refine ⟨(C8_theorem { done := false, errMsg := "" }
    { headers := [], body := "" } (some (.num 1))).1 rfl, ?_⟩
  exact (C8_theorem { done := false, errMsg := "" }
    { headers := [], body := "x" } none).2 (by decide) rfl

/-! ## C10: decode failures keep the response wrapper -/

/-- C10: when the transport round trip succeeds but decoding the body
into the typed destination fails, `Do` returns the decode error together
with the response wrapper built by `newResponse` — its pagination fields
populated from the round trip's headers — not a nil response. -/
theorem C10_theorem (ctx : GoContext) (resp : HTTPResponse)
    (prior : Option Json)
    (hne : skipWs resp.body.data ≠ [])
    (hfail : decodeJson resp.body.data = none) :
    Do (some ctx) (.success resp) (.typed prior)
      = { resp := some (newResponse resp),
          err := some (.decodeErr resp.body),
          target := .typed prior } := by
  rcases h : skipWs resp.body.data with _ | ⟨c, r⟩
  · exact absurd h hne
  · simp [Do, BareDo, decodeBody, h, hfail, newResponse_raw]

/-- Witness for C10: an unparseable body together with a Link header;
the surfaced response wrapper is the populated one. -/
theorem C10_witness :
    Do (some { done := false, errMsg := "" })
        (.success
          { headers := [("Link", ["<http://h?page=3>; rel=\"next\""])],
            body := "x" })
        (.typed none)
      = { resp := some (newResponse
            { headers := [("Link", ["<http://h?page=3>; rel=\"next\""])],
              body := "x" }),
          err := some (.decodeErr "x"),
          target := .typed none } :=
  C10_theorem { done := false, errMsg := "" }
    { headers := [("Link", ["<http://h?page=3>; rel=\"next\""])], body := "x" }
    none (by decide) rfl

end Stardog
